import Mathlib

/- Shallow embedding of the sales-dashboard data pipeline of this repository
   (src/dashboard.py; src/tra.py is a near-duplicate variant).

   Conventions of the embedding:
   * tables are lists of records (structures), kept in file order;
   * money amounts are rationals;
   * timestamps are naturals (seconds); the calendar is abstracted as
     day = fecha / 86400 and month = day / 31 (fixed-length months): the
     claims depend only on the monotonicity of these maps and on the
     binning semantics, never on real calendar lengths;
   * a pandas left merge keeps every left row, pairing it with each matching
     right row, or with none when no right row matches;
   * pd.Grouper with a monthly frequency bins like resample: every calendar
     month between the minimum and the maximum date of the frame appears as
     a bin, and an empty bin aggregates to sum 0 / count 0;
   * text fields that pass through the normalization of dashboard.py lines
     48-50 (strip, lower, capwords) are plain strings: that normalization
     raises on a null value, so any frame that reaches the filter has these
     columns non-null (hence the dropna of line 89 is the identity there). -/

/- dashboard.py lines 17-25: severity bucketing of a sales total. -/
def obtener_color (ventas : Rat) : String :=
  if ventas > 1000000 then "#ff0000"
  else if ventas > 500000 then "#ff6600"
  else if ventas > 100000 then "#ffcc00"
  else "#33cc33"

/- A row of the normalized joined table df of dashboard.py (line 46 after
   lines 48-50): one record per transaction, enriched with product and
   customer attributes, categorical fields already normalized. -/
structure DRow where
  transaccion_id : Nat
  fecha : Nat
  cliente_id : String
  categoria : String
  segmento : String
  metodo_pago : String
  cantidad : Nat
  total : Rat
  deriving DecidableEq

/- Python date(): the calendar day of a timestamp. -/
def dateOf (t : Nat) : Nat := t / 86400

/- Calendar month of a timestamp (fixed-length months, see header). -/
def monthOf (t : Nat) : Nat := dateOf t / 31

/- Minimum of a list of naturals (df[fecha].min() is only ever taken on a
   nonempty frame; the value on [] is irrelevant to the claims). -/
def natMinList : List Nat → Nat
  | [] => 0
  | x :: xs => xs.foldl min x

def natMaxList : List Nat → Nat
  | [] => 0
  | x :: xs => xs.foldl max x

/- dashboard.py line 57: fecha_min = df[fecha].min().date(). -/
def fechaMinDate (df : List DRow) : Nat := dateOf (natMinList (df.map (·.fecha)))

/- dashboard.py line 58: fecha_max = df[fecha].max().date(). -/
def fechaMaxDate (df : List DRow) : Nat := dateOf (natMaxList (df.map (·.fecha)))

/- sorted(...) of Python over strings: lexicographic insertion sort. -/
def sortedStr (l : List String) : List String := List.insertionSort (· ≤ ·) l

/- dashboard.py line 69: sorted(df[categoria].unique()). -/
def categorias_disponibles (df : List DRow) : List String :=
  sortedStr (df.map (·.categoria)).dedup

/- dashboard.py line 79: sorted(df[segmento].unique()). -/
def segmentos_disponibles (df : List DRow) : List String :=
  sortedStr (df.map (·.segmento)).dedup

/- dashboard.py line 89: sorted(df[metodo_pago].dropna().unique()); the
   column is non-null after normalization, so dropna is the identity. -/
def metodos_disponibles (df : List DRow) : List String :=
  sortedStr (df.map (·.metodo_pago)).dedup

/- dashboard.py lines 99-105: the filter condition, a conjunction of the
   inclusive date-range test (on calendar days) and the three membership
   tests. -/
def condicion_filtro (d1 d2 : Nat) (cats segs mets : List String)
    (r : DRow) : Bool :=
  decide (d1 ≤ dateOf r.fecha) && decide (dateOf r.fecha ≤ d2) &&
    cats.contains r.categoria && segs.contains r.segmento &&
    mets.contains r.metodo_pago

/- dashboard.py line 108: df_filtrado = df[condicion_filtro]. -/
def df_filtrado (df : List DRow) (d1 d2 : Nat)
    (cats segs mets : List String) : List DRow :=
  df.filter (condicion_filtro d1 d2 cats segs mets)

/- Raw record types of the three input tables (spec section 3; column
   names follow the CSV columns read in dashboard.py lines 36-38). -/
structure Transaccion where
  transaccion_id : Nat
  fecha : Nat
  producto_id : String
  cliente_id : String
  cantidad : Nat
  total : Rat
  metodo_pago : String
  deriving DecidableEq

structure Producto where
  producto_id : String
  nombre : String
  categoria : String
  stock : Rat
  deriving DecidableEq

structure Cliente where
  cliente_id : String
  nombre : String
  apellido : String
  email : String
  ciudad : String
  latitud : Rat
  longitud : Rat
  segmento : Option String
  deriving DecidableEq

/- pandas pd.merge(l, r, on=key, how=left): every left row is kept; a left
   row is paired with each matching right row, or with none when no right
   row matches. -/
def mergeLeft {α β : Type} (l : List α) (r : List β)
    (ka : α → String) (kb : β → String) : List (α × Option β) :=
  l.flatMap (fun a =>
    match r.filter (fun b => kb b == ka a) with
    | [] => [(a, none)]
    | bs => bs.map (fun b => (a, some b)))

/- dashboard.py lines 40-41: left join transactions to products on
   producto_id, then left join the result to customers on cliente_id. -/
def load_data (ts : List Transaccion) (ps : List Producto)
    (cs : List Cliente) :
    List ((Transaccion × Option Producto) × Option Cliente) :=
  mergeLeft (mergeLeft ts ps (·.producto_id) (·.producto_id)) cs
    (fun tp => tp.1.cliente_id) (·.cliente_id)

/- dashboard.py line 128: df_filtrado[cliente_id].value_counts() gives one
   entry per distinct customer with the row count of that customer (pandas
   orders the entries by descending count; no claim depends on the entry
   order, so first-occurrence order is kept here). -/
def compras_por_cliente (rows : List DRow) : List (String × Nat) :=
  ((rows.map (·.cliente_id)).dedup).map
    (fun cid => (cid, (rows.filter (fun r => r.cliente_id == cid)).length))

/- dashboard.py line 129: (compras_por_cliente > 1).mean() * 100. The mean
   of an empty series is NaN in pandas, modelled here as none. -/
def tasa_retencion (rows : List DRow) : Option Rat :=
  match compras_por_cliente rows with
  | [] => none
  | counts =>
    some ((((counts.filter (fun p => decide (1 < p.2))).length : Rat) /
      (counts.length : Rat)) * 100)

/- dashboard.py lines 165-172: groupby(pd.Grouper(key=fecha, freq=ME))
   with sum of total and count of transaccion_id. Grouper bins like
   resample: one bin per calendar month from the month of the minimum date
   through the month of the maximum date, in chronological order; a month
   with no rows still appears, aggregating to sum 0 and count 0. -/
def datos_mensuales (rows : List DRow) : List (Nat × Rat × Nat) :=
  match rows with
  | [] => []
  | _ :: _ =>
    let m0 := monthOf (natMinList (rows.map (·.fecha)))
    let m1 := monthOf (natMaxList (rows.map (·.fecha)))
    (List.range' m0 (m1 - m0 + 1)).map (fun m =>
      (m, ((rows.filter (fun r => monthOf r.fecha == m)).map (·.total)).sum,
        (rows.filter (fun r => monthOf r.fecha == m)).length))

/- dashboard.py line 121: total sales of the filtered view. -/
def ventas_totales (rows : List DRow) : Rat := (rows.map (·.total)).sum

/- dashboard.py line 284: groupby(categoria) sum of total (pandas sorts
   the group keys ascending). -/
def ventas_por_categoria (rows : List DRow) : List (String × Rat) :=
  (sortedStr (rows.map (·.categoria)).dedup).map
    (fun c => (c, ((rows.filter (fun r => r.categoria == c)).map
      (·.total)).sum))

/- dashboard.py lines 215-221: per-customer sum of total and count of
   transactions over the filtered view. -/
def ventas_por_ubicacion (rows : List DRow) : List (String × Rat × Nat) :=
  (sortedStr (rows.map (·.cliente_id)).dedup).map
    (fun cid => (cid,
      ((rows.filter (fun r => r.cliente_id == cid)).map (·.total)).sum,
      (rows.filter (fun r => r.cliente_id == cid)).length))

/- dashboard.py lines 210-212: customers restricted to those appearing in
   the filtered view. -/
def df_clientes_filtrado (dfF : List DRow) (clientes : List Cliente) :
    List Cliente :=
  clientes.filter (fun c => (dfF.map (·.cliente_id)).contains c.cliente_id)

/- A row of df_clientes_geo (dashboard.py lines 224-229): a kept customer
   together with the optional merged (ventas_totales, num_transacciones)
   pair; none models the NaN fields of an unmatched left-merge row. -/
structure GeoRow where
  cliente : Cliente
  ventas : Option (Rat × Nat)
  deriving DecidableEq

def df_clientes_geo (dfF : List DRow) (clientes : List Cliente) :
    List GeoRow :=
  (mergeLeft (df_clientes_filtrado dfF clientes) (ventas_por_ubicacion dfF)
    (fun c => c.cliente_id) (fun v => v.1)).map
    (fun p => ⟨p.1, p.2.map (fun v => v.2)⟩)

/- The groupby key of dashboard.py line 232. -/
def ubicacionKey (g : GeoRow) : Rat × Rat × String :=
  (g.cliente.latitud, g.cliente.longitud, g.cliente.ciudad)

/- pandas sum skips NaN, so a missing merge result contributes 0. -/
def ventasDe (g : GeoRow) : Rat :=
  match g.ventas with
  | none => 0
  | some v => v.1

def transDe (g : GeoRow) : Nat :=
  match g.ventas with
  | none => 0
  | some v => v.2

/- The non-null segment values of a location group (Series.mode drops
   NaN values before counting). -/
def segmentosDe (grp : List GeoRow) : List String :=
  grp.filterMap (fun g => g.cliente.segmento)

def countOcc (xs : List String) (v : String) : Nat :=
  (xs.filter (fun x => x == v)).length

def maxCnt (xs : List String) : Nat :=
  (xs.map (countOcc xs)).foldr max 0

/- pandas Series.mode(): every value attaining the maximal count, sorted
   ascending; empty input (or all-NaN input) gives an empty result. -/
def modas (xs : List String) : List String :=
  sortedStr (xs.dedup.filter (fun v => countOcc xs v == maxCnt xs))

/- dashboard.py line 236: x.mode()[0] if not x.mode().empty else N/A. -/
def segmento_principal_de (grp : List GeoRow) : String :=
  match modas (segmentosDe grp) with
  | [] => "N/A"
  | s :: _ => s

structure UbicacionRow where
  latitud : Rat
  longitud : Rat
  ciudad : String
  conteo_clientes : Nat
  ventas_totales : Rat
  num_transacciones : Nat
  segmento_principal : String
  deriving DecidableEq

/- dashboard.py lines 232-240: the per-location rollup. cliente_id count
   is the group size (the column is never null); ventas_totales and
   num_transacciones are NaN-skipping sums; segmento is aggregated by the
   mode rule above. pandas sorts the rollup by its key tuple; no claim
   depends on the row order, so first-occurrence key order is kept. -/
def coordenadas_unicas (dfF : List DRow) (clientes : List Cliente) :
    List UbicacionRow :=
  let geo := df_clientes_geo dfF clientes
  ((geo.map ubicacionKey).dedup).map (fun k =>
    let grp := geo.filter (fun g => decide (ubicacionKey g = k))
    ⟨k.1, k.2.1, k.2.2, grp.length, (grp.map ventasDe).sum,
      (grp.map transDe).sum, segmento_principal_de grp⟩)

/- dashboard.py line 256: the guarded average ticket of one rollup row. -/
def avg_venta (ventas : Rat) (num : Nat) : Rat :=
  if 0 < num then ventas / (num : Rat) else 0

/- The group of df_clientes_geo rows behind one rollup row, identified by
   the location key the row carries. -/
def grupoUbicacion (dfF : List DRow) (clientes : List Cliente)
    (e : UbicacionRow) : List GeoRow :=
  (df_clientes_geo dfF clientes).filter
    (fun g => decide (ubicacionKey g = (e.latitud, e.longitud, e.ciudad)))

/- Python text model for the loader normalization (dashboard.py lines
   48-50): a string is its list of code points; whitespace and case
   conversion follow the ASCII rules Python applies to these fields. -/
def isSpacePy (c : Nat) : Bool :=
  decide (c = 32 ∨ c = 9 ∨ c = 10 ∨ c = 11 ∨ c = 12 ∨ c = 13)

def pyLowerChar (c : Nat) : Nat := if 65 ≤ c ∧ c ≤ 90 then c + 32 else c

def pyUpperChar (c : Nat) : Nat := if 97 ≤ c ∧ c ≤ 122 then c - 32 else c

def stripLeadingWs (s : List Nat) : List Nat := s.dropWhile isSpacePy

def stripTrailingWs (s : List Nat) : List Nat :=
  (s.reverse.dropWhile isSpacePy).reverse

/- Python str.strip(): remove leading and trailing whitespace. -/
def pyStrip (s : List Nat) : List Nat := stripLeadingWs (stripTrailingWs s)

/- Python str.lower() (ASCII). -/
def pyLower (s : List Nat) : List Nat := s.map pyLowerChar

/- Python str.split() with no separator: split on whitespace runs,
   discarding empty pieces. -/
def splitWsAux : List Nat → List Nat → List (List Nat)
  | [], acc => if acc.isEmpty then [] else [acc.reverse]
  | c :: cs, acc =>
    if isSpacePy c then
      if acc.isEmpty then splitWsAux cs [] else acc.reverse :: splitWsAux cs []
    else splitWsAux cs (c :: acc)

def splitWs (s : List Nat) : List (List Nat) := splitWsAux s []

/- Python str.capitalize(): first code point upper-cased, the rest
   lower-cased. -/
def pyCapitalize : List Nat → List Nat
  | [] => []
  | c :: cs => pyUpperChar c :: cs.map pyLowerChar

/- string.capwords: split on whitespace, capitalize each word, rejoin
   with single spaces. -/
def capwords (s : List Nat) : List Nat :=
  List.intercalate [32] ((splitWs s).map pyCapitalize)

/- The full normalization of dashboard.py lines 48-50:
   strip, then lower, then capwords. -/
def normalizeField (s : List Nat) : List Nat := capwords (pyLower (pyStrip s))

def str2codes (s : String) : List Nat := s.data.map Char.toNat

/- Concrete records used by the witness theorems. -/
def rowA : DRow := ⟨1, 3600, "C1", "Electronics", "Corporate", "Card", 2, 10⟩

def rowB : DRow := ⟨2, 86400 * 62, "C2", "Home", "Retail", "Cash", 1, 7⟩

def clienteA : Cliente :=
  ⟨"C1", "Ana", "Diaz", "ana@mail.co", "Bogota", 4, 5, some "Corporate"⟩

def transA : Transaccion := ⟨1, 3600, "P1", "C1", 2, 10, "Card"⟩

def prodA : Producto := ⟨"P1", "Laptop", "Electronics", 3⟩

/- The single rollup row of coordenadas_unicas [rowA] [clienteA]. -/
def uRowA : UbicacionRow := ⟨4, 5, "Bogota", 1, 10, 1, "Corporate"⟩

/- Helper facts about the embedding. -/

theorem natMinList_le {l : List Nat} {y : Nat} (hy : y ∈ l) :
    natMinList l ≤ y := by
  obtain ⟨x, xs, rfl⟩ : ∃ x xs, l = x :: xs := by
    cases l with
    | nil => cases hy
    | cons x xs => exact ⟨x, xs, rfl⟩
  have key : ∀ (xs : List Nat) (a : Nat),
      xs.foldl min a ≤ a ∧ ∀ y ∈ xs, xs.foldl min a ≤ y := by
    intro xs
    induction xs with
    | nil => intro a; exact ⟨Nat.le_refl a, by intro y hy; cases hy⟩
    | cons z zs ih =>
      intro a
      refine ⟨?_, ?_⟩
      · exact Nat.le_trans ((ih (min a z)).1) (Nat.min_le_left a z)
      · intro y hy
        rcases List.mem_cons.mp hy with h | h
        · rw [h]
          exact Nat.le_trans ((ih (min a z)).1) (Nat.min_le_right a z)
        · exact (ih (min a z)).2 y h
  rcases List.mem_cons.mp hy with h | h
  · subst h; exact (key xs y).1
  · exact (key xs x).2 y h

theorem le_natMaxList {l : List Nat} {y : Nat} (hy : y ∈ l) :
    y ≤ natMaxList l := by
  obtain ⟨x, xs, rfl⟩ : ∃ x xs, l = x :: xs := by
    cases l with
    | nil => cases hy
    | cons x xs => exact ⟨x, xs, rfl⟩
  have key : ∀ (xs : List Nat) (a : Nat),
      a ≤ xs.foldl max a ∧ ∀ y ∈ xs, y ≤ xs.foldl max a := by
    intro xs
    induction xs with
    | nil => intro a; exact ⟨Nat.le_refl a, by intro y hy; cases hy⟩
    | cons z zs ih =>
      intro a
      refine ⟨?_, ?_⟩
      · exact Nat.le_trans (Nat.le_max_left a z) ((ih (max a z)).1)
      · intro y hy
        rcases List.mem_cons.mp hy with h | h
        · rw [h]
          exact Nat.le_trans (Nat.le_max_right a z) ((ih (max a z)).1)
        · exact (ih (max a z)).2 y h
  rcases List.mem_cons.mp hy with h | h
  · subst h; exact (key xs y).1
  · exact (key xs x).2 y h

theorem mem_sortedStr {s : String} {l : List String} :
    s ∈ sortedStr l ↔ s ∈ l :=
  (List.perm_insertionSort (· ≤ ·) l).mem_iff

/-- Claim C1: the severity bucketing function returns the red tier iff the
sales total strictly exceeds 1000000, the orange tier iff it is in
(500000, 1000000], the yellow tier iff it is in (100000, 500000], and the
green tier otherwise (iff it is at most 100000): all three thresholds are
strict greater-than comparisons, so 1000000 maps to orange and 100000 maps
to green. -/
theorem C1_obtener_color_tiers (v : Rat) :
    (obtener_color v = "#ff0000" ↔ 1000000 < v) ∧
    (obtener_color v = "#ff6600" ↔ 500000 < v ∧ v ≤ 1000000) ∧
    (obtener_color v = "#ffcc00" ↔ 100000 < v ∧ v ≤ 500000) ∧
    (obtener_color v = "#33cc33" ↔ v ≤ 100000) := by
  unfold obtener_color
  split_ifs with h1 h2 h3
  · refine ⟨iff_of_true rfl h1, ?_, ?_, ?_⟩
    · exact iff_of_false (by decide) (fun h => absurd h1 (not_lt.mpr h.2))
    · exact iff_of_false (by decide)
        (fun h => absurd h1 (not_lt.mpr (h.2.trans (by norm_num))))
    · exact iff_of_false (by decide)
        (fun h => absurd h1 (not_lt.mpr (h.trans (by norm_num))))
  · refine ⟨iff_of_false (by decide) h1, iff_of_true rfl ⟨h2, not_lt.mp h1⟩,
      ?_, ?_⟩
    · exact iff_of_false (by decide) (fun h => absurd h2 (not_lt.mpr h.2))
    · exact iff_of_false (by decide)
        (fun h => absurd h2 (not_lt.mpr (h.trans (by norm_num))))
  · refine ⟨iff_of_false (by decide) h1, ?_, iff_of_true rfl ⟨h3, not_lt.mp h2⟩,
      ?_⟩
    · exact iff_of_false (by decide) (fun h => h2 h.1)
    · exact iff_of_false (by decide) (fun h => absurd h3 (not_lt.mpr h))
  · refine ⟨iff_of_false (by decide) h1, ?_, ?_,
      iff_of_true rfl (not_lt.mp h3)⟩
    · exact iff_of_false (by decide) (fun h => h2 h.1)
    · exact iff_of_false (by decide) (fun h => h3 h.1)

theorem contains_true_of_mem {s : String} {l : List String} (h : s ∈ l) :
    l.contains s = true :=
  List.elem_iff.mpr h

/-- Claim C3: filtering the joined table with the date range equal to its
own minimum and maximum calendar date and with each of the three
membership selections equal to the full set of values occurring in the
table returns the table unchanged: no row is dropped. -/
theorem C3_full_selection_is_identity (df : List DRow) (_h : df ≠ []) :
    df_filtrado df (fechaMinDate df) (fechaMaxDate df)
      (categorias_disponibles df) (segmentos_disponibles df)
      (metodos_disponibles df) = df := by
  unfold df_filtrado
  apply List.filter_eq_self.mpr
  intro r hr
  have h1 : fechaMinDate df ≤ dateOf r.fecha :=
    Nat.div_le_div_right (natMinList_le (List.mem_map_of_mem _ hr))
  have h2 : dateOf r.fecha ≤ fechaMaxDate df :=
    Nat.div_le_div_right (le_natMaxList (List.mem_map_of_mem _ hr))
  have hc : (categorias_disponibles df).contains r.categoria = true :=
    contains_true_of_mem (mem_sortedStr.mpr
      (List.mem_dedup.mpr (List.mem_map_of_mem _ hr)))
  have hs : (segmentos_disponibles df).contains r.segmento = true :=
    contains_true_of_mem (mem_sortedStr.mpr
      (List.mem_dedup.mpr (List.mem_map_of_mem _ hr)))
  have hm : (metodos_disponibles df).contains r.metodo_pago = true :=
    contains_true_of_mem (mem_sortedStr.mpr
      (List.mem_dedup.mpr (List.mem_map_of_mem _ hr)))
  unfold condicion_filtro
  simp only [Bool.and_eq_true, decide_eq_true_eq]
  exact ⟨⟨⟨⟨h1, h2⟩, hc⟩, hs⟩, hm⟩

theorem C3_full_selection_witness :
    df_filtrado [rowA] (fechaMinDate [rowA]) (fechaMaxDate [rowA])
      (categorias_disponibles [rowA]) (segmentos_disponibles [rowA])
      (metodos_disponibles [rowA]) = [rowA] :=
  C3_full_selection_is_identity [rowA] (List.cons_ne_nil _ _)

/-- Claim C6: whenever at least one of the three membership selections
(categories, segments, payment methods) is empty, the filter returns zero
rows: an empty selection means match nothing, not no filter. -/
theorem C6_empty_selection_empty_result (df : List DRow) (d1 d2 : Nat)
    (cats segs mets : List String)
    (h : cats = [] ∨ segs = [] ∨ mets = []) :
    df_filtrado df d1 d2 cats segs mets = [] := by
  unfold df_filtrado
  apply List.filter_eq_nil_iff.mpr
  intro r _
  unfold condicion_filtro
  simp only [Bool.and_eq_true, decide_eq_true_eq]
  intro hcond
  rcases h with hc | hs | hm
  · rw [hc] at hcond; exact Bool.false_ne_true hcond.1.1.2
  · rw [hs] at hcond; exact Bool.false_ne_true hcond.1.2
  · rw [hm] at hcond; exact Bool.false_ne_true hcond.2

theorem C6_empty_selection_witness :
    df_filtrado [rowA] 0 99 [] ["Corporate"] ["Card"] = [] :=
  C6_empty_selection_empty_result [rowA] 0 99 [] ["Corporate"] ["Card"]
    (Or.inl rfl)

theorem compras_eq_nil_iff (rows : List DRow) :
    compras_por_cliente rows = [] ↔ rows = [] := by
  unfold compras_por_cliente
  rw [List.map_eq_nil_iff, List.dedup_eq_nil, List.map_eq_nil_iff]

/-- Claim C4, counterexample: on an empty filtered view the retention-rate
computation of dashboard.py line 129 takes the mean of an empty series,
which is NaN (modelled none), not the deterministic defined percentage
(such as 0) that the claim asserts. -/
theorem C4_retention_empty_counterexample :
    tasa_retencion ([] : List DRow) = none := rfl

/-- Claim C4 as amended: on an empty filtered view (equivalently, zero
customers) the retention computation returns NaN (modelled none)
deterministically rather than raising, and on every nonempty view it
returns a defined percentage between 0 and 100. -/
theorem C4_retention_amended (rows : List DRow) :
    (tasa_retencion rows = none ↔ rows = []) ∧
    ∀ q : Rat, tasa_retencion rows = some q → 0 ≤ q ∧ q ≤ 100 := by
  constructor
  · constructor
    · intro h
      by_contra hne
      rcases hx : compras_por_cliente rows with _ | ⟨p, ps⟩
      · exact hne ((compras_eq_nil_iff rows).mp hx)
      · unfold tasa_retencion at h
        rw [hx] at h
        exact Option.noConfusion h
    · intro h
      rw [h]
      rfl
  · intro q hq
    rcases hx : compras_por_cliente rows with _ | ⟨p, ps⟩
    · unfold tasa_retencion at hq
      rw [hx] at hq
      exact Option.noConfusion hq
    · unfold tasa_retencion at hq
      rw [hx] at hq
      have heq := Option.some.injEq _ _ ▸ hq
      have heq2 : ((((p :: ps).filter (fun x => decide (1 < x.2))).length : Rat) /
          ((p :: ps).length : Rat)) * 100 = q := by
        exact_mod_cast heq
      have hn : (0 : Rat) < ((p :: ps).length : Rat) := by
        have : 0 < (p :: ps).length := Nat.succ_pos _
        exact_mod_cast this
      have ha : (((p :: ps).filter (fun x => decide (1 < x.2))).length : Rat) ≤
          ((p :: ps).length : Rat) := by
        exact_mod_cast List.length_filter_le _ _
      have hdiv1 : ((((p :: ps).filter (fun x => decide (1 < x.2))).length : Rat) /
          ((p :: ps).length : Rat)) ≤ 1 := (div_le_one hn).mpr ha
      have hdiv0 : (0 : Rat) ≤
          ((((p :: ps).filter (fun x => decide (1 < x.2))).length : Rat) /
          ((p :: ps).length : Rat)) :=
        div_nonneg (Nat.cast_nonneg _) (Nat.cast_nonneg _)
      constructor
      · rw [← heq2]
        nlinarith
      · rw [← heq2]
        nlinarith

theorem C4_retention_witness :
    (tasa_retencion [rowA] = none ↔ [rowA] = []) ∧
    (0 ≤ (0 : Rat) ∧ (0 : Rat) ≤ 100) :=
  ⟨(C4_retention_amended [rowA]).1, (C4_retention_amended [rowA]).2 0
    (by norm_num [tasa_retencion, compras_por_cliente, rowA])⟩

theorem sumTotal_filter_add (p : DRow → Bool) (rows : List DRow) :
    ((rows.filter p).map (·.total)).sum +
      ((rows.filter (fun r => !(p r))).map (·.total)).sum =
      (rows.map (·.total)).sum := by
  induction rows with
  | nil => simp
  | cons x xs ih =>
    by_cases hx : p x <;>
      simp only [List.filter_cons, hx, Bool.not_true, Bool.not_false,
        Bool.false_eq_true, ite_true, ite_false, if_false, if_true,
        List.map_cons, List.sum_cons] <;>
      rw [← ih] <;> ring

theorem sum_grouped_categoria (cs : List String) :
    ∀ rows : List DRow, cs.Nodup → (∀ r ∈ rows, r.categoria ∈ cs) →
      (cs.map (fun c =>
        ((rows.filter (fun r => r.categoria == c)).map (·.total)).sum)).sum
        = (rows.map (·.total)).sum := by
  induction cs with
  | nil =>
    intro rows _ hcov
    cases rows with
    | nil => simp
    | cons r rs =>
      exact absurd (hcov r (List.mem_cons_self r rs)) (List.not_mem_nil _)
  | cons c cs ih =>
    intro rows hnd hcov
    simp only [List.map_cons, List.sum_cons]
    have hnd2 := (List.nodup_cons.mp hnd).2
    have hcnotin := (List.nodup_cons.mp hnd).1
    have hcov2 : ∀ r ∈ rows.filter (fun r => !(r.categoria == c)),
        r.categoria ∈ cs := by
      intro r hr
      have hrr := List.mem_filter.mp hr
      rcases List.mem_cons.mp (hcov r hrr.1) with h | h
      · exfalso
        have hb := hrr.2
        rw [h] at hb
        simp at hb
      · exact h
    have hmapeq :
        cs.map (fun c2 =>
          ((rows.filter (fun r => r.categoria == c2)).map (·.total)).sum) =
        cs.map (fun c2 =>
          (((rows.filter (fun r => !(r.categoria == c))).filter
            (fun r => r.categoria == c2)).map (·.total)).sum) := by
      apply List.map_congr_left
      intro c2 hc2
      have hne : c2 ≠ c := fun hq => hcnotin (hq ▸ hc2)
      have hfeq : rows.filter (fun r => r.categoria == c2) =
          (rows.filter (fun r => !(r.categoria == c))).filter
            (fun r => r.categoria == c2) := by
        rw [List.filter_filter]
        apply List.filter_congr
        intro r _
        cases hb : (r.categoria == c2) with
        | false => simp [hb]
        | true =>
          have hrc : r.categoria = c2 := eq_of_beq hb
          have hbc : (r.categoria == c) = false :=
            beq_eq_false_iff_ne.mpr (by rw [hrc]; exact hne)
          simp [hb, hbc]
      rw [hfeq]
    rw [hmapeq, ih (rows.filter (fun r => !(r.categoria == c))) hnd2 hcov2]
    exact sumTotal_filter_add (fun r => r.categoria == c) rows

/-- Claim C8: the total-sales aggregate over the filtered view equals the
sum of the per-category sums of the per-category totals table. -/
theorem C8_total_eq_sum_of_categories (rows : List DRow) :
    ((ventas_por_categoria rows).map (fun p => p.2)).sum =
      ventas_totales rows := by
  unfold ventas_por_categoria ventas_totales
  rw [List.map_map]
  have hcomp : ((fun p : String × Rat => p.2) ∘ (fun c =>
      (c, ((rows.filter (fun r => r.categoria == c)).map (·.total)).sum))) =
      (fun c =>
        ((rows.filter (fun r => r.categoria == c)).map (·.total)).sum) := rfl
  rw [hcomp]
  have hperm : List.Perm (sortedStr (rows.map (·.categoria)).dedup)
      ((rows.map (·.categoria)).dedup) := List.perm_insertionSort _ _
  rw [(hperm.map _).sum_eq]
  exact sum_grouped_categoria ((rows.map (·.categoria)).dedup) rows
    (List.nodup_dedup _)
    (fun r hr => List.mem_dedup.mpr (List.mem_map_of_mem _ hr))

/-- Claim C7, counterexample: the monthly series of a view with
transactions only in the first and the third month still contains a row
for the empty middle month (with sum 0 and count 0), because the Grouper
binning spans every month between the minimum and maximum date; the claim
that months with zero transactions do not appear as rows is false. -/
theorem C7_monthly_series_counterexample :
    (1, (0 : Rat), (0 : Nat)) ∈ datos_mensuales [rowA, rowB] ∧
    [rowA, rowB].filter (fun r => monthOf r.fecha == 1) = [] := by
  constructor <;> decide

/-- Claim C7 as amended: the monthly series has one row per calendar month
from the month of the minimum date of the view through the month of its
maximum date inclusive: every month of that inclusive range appears (a
month of the range with zero transactions appears as a row with sum 0 and
count 0, so no month is skipped), no other month appears, the rows are in
strictly increasing (thus chronological) month order, every transaction
month of the view appears, and each row carries the sum of total and the
transaction count of its month. -/
theorem C7_monthly_series_amended (rows : List DRow) (h : rows ≠ []) :
    ((datos_mensuales rows).map (fun e => e.1)).Pairwise (· < ·) ∧
    (∀ m : Nat, monthOf (natMinList (rows.map (·.fecha))) ≤ m →
      m ≤ monthOf (natMaxList (rows.map (·.fecha))) →
      ∃ e ∈ datos_mensuales rows, e.1 = m) ∧
    (∀ m : Nat, monthOf (natMinList (rows.map (·.fecha))) ≤ m →
      m ≤ monthOf (natMaxList (rows.map (·.fecha))) →
      rows.filter (fun r => monthOf r.fecha == m) = [] →
      (m, (0 : Rat), (0 : Nat)) ∈ datos_mensuales rows) ∧
    (∀ r ∈ rows, ∃ e ∈ datos_mensuales rows, e.1 = monthOf r.fecha) ∧
    (∀ e ∈ datos_mensuales rows,
      monthOf (natMinList (rows.map (·.fecha))) ≤ e.1 ∧
      e.1 ≤ monthOf (natMaxList (rows.map (·.fecha))) ∧
      e.2.1 = ((rows.filter (fun r => monthOf r.fecha == e.1)).map
        (·.total)).sum ∧
      e.2.2 = (rows.filter (fun r => monthOf r.fecha == e.1)).length) := by
  cases rows with
  | nil => exact absurd rfl h
  | cons x xs =>
    have hd : datos_mensuales (x :: xs) =
        (List.range' (monthOf (natMinList ((x :: xs).map (·.fecha))))
          (monthOf (natMaxList ((x :: xs).map (·.fecha))) -
            monthOf (natMinList ((x :: xs).map (·.fecha))) + 1)).map
          (fun m => (m,
            (((x :: xs).filter (fun r => monthOf r.fecha == m)).map
              (·.total)).sum,
            ((x :: xs).filter (fun r => monthOf r.fecha == m)).length)) := rfl
    have hxf : x.fecha ∈ (x :: xs).map (·.fecha) :=
      List.mem_map_of_mem _ (List.mem_cons_self x xs)
    have hm01 : monthOf (natMinList ((x :: xs).map (·.fecha))) ≤
        monthOf (natMaxList ((x :: xs).map (·.fecha))) :=
      Nat.le_trans
        (Nat.div_le_div_right (Nat.div_le_div_right (natMinList_le hxf)))
        (Nat.div_le_div_right (Nat.div_le_div_right (le_natMaxList hxf)))
    refine ⟨?_, ?_, ?_, ?_, ?_⟩
    · rw [hd, List.map_map]
      have hcomp : ((fun e : Nat × Rat × Nat => e.1) ∘ (fun m => (m,
          (((x :: xs).filter (fun r => monthOf r.fecha == m)).map
            (·.total)).sum,
          ((x :: xs).filter (fun r => monthOf r.fecha == m)).length))) =
          id := rfl
      rw [hcomp, List.map_id]
      exact List.pairwise_lt_range' _ _
    · intro m hm0 hm1
      have hmem : m ∈
          List.range' (monthOf (natMinList ((x :: xs).map (·.fecha))))
            (monthOf (natMaxList ((x :: xs).map (·.fecha))) -
              monthOf (natMinList ((x :: xs).map (·.fecha))) + 1) :=
        List.mem_range'_1.mpr ⟨hm0, by omega⟩
      rw [hd]
      exact ⟨_, List.mem_map_of_mem _ hmem, rfl⟩
    · intro m hm0 hm1 hfil
      have hmem : m ∈
          List.range' (monthOf (natMinList ((x :: xs).map (·.fecha))))
            (monthOf (natMaxList ((x :: xs).map (·.fecha))) -
              monthOf (natMinList ((x :: xs).map (·.fecha))) + 1) :=
        List.mem_range'_1.mpr ⟨hm0, by omega⟩
      have hrow : ((m,
          (((x :: xs).filter (fun r => monthOf r.fecha == m)).map
            (·.total)).sum,
          ((x :: xs).filter (fun r => monthOf r.fecha == m)).length) :
            Nat × Rat × Nat) ∈ datos_mensuales (x :: xs) := by
        rw [hd]
        exact List.mem_map_of_mem _ hmem
      rw [hfil] at hrow
      simpa using hrow
    · intro r hr
      have hmin : monthOf (natMinList ((x :: xs).map (·.fecha))) ≤
          monthOf r.fecha :=
        Nat.div_le_div_right (Nat.div_le_div_right
          (natMinList_le (List.mem_map_of_mem _ hr)))
      have hmax : monthOf r.fecha ≤
          monthOf (natMaxList ((x :: xs).map (·.fecha))) :=
        Nat.div_le_div_right (Nat.div_le_div_right
          (le_natMaxList (List.mem_map_of_mem _ hr)))
      have hmem : monthOf r.fecha ∈
          List.range' (monthOf (natMinList ((x :: xs).map (·.fecha))))
            (monthOf (natMaxList ((x :: xs).map (·.fecha))) -
              monthOf (natMinList ((x :: xs).map (·.fecha))) + 1) :=
        List.mem_range'_1.mpr ⟨hmin, by omega⟩
      rw [hd]
      exact ⟨_, List.mem_map_of_mem _ hmem, rfl⟩
    · intro e he
      rw [hd] at he
      obtain ⟨m, hm, rfl⟩ := List.mem_map.mp he
      have hb := List.mem_range'_1.mp hm
      exact ⟨hb.1, by omega, rfl, rfl⟩

theorem C7_monthly_series_witness :
    ((datos_mensuales [rowA]).map (fun e => e.1)).Pairwise (· < ·) ∧
    ∃ e ∈ datos_mensuales [rowA], e.1 = 0 :=
  ⟨(C7_monthly_series_amended [rowA] (List.cons_ne_nil _ _)).1,
    (C7_monthly_series_amended [rowA] (List.cons_ne_nil _ _)).2.1 0
      (by decide) (by decide)⟩

theorem dropWhile_append_all (p : Nat → Bool) (u x : List Nat)
    (hu : ∀ c ∈ u, p c = true) :
    (u ++ x).dropWhile p = x.dropWhile p := by
  induction u with
  | nil => rfl
  | cons a u ih =>
    rw [List.cons_append,
      List.dropWhile_cons_of_pos (hu a (List.mem_cons_self a u))]
    exact ih (fun c hc => hu c (List.mem_cons_of_mem a hc))

theorem dropWhile_nil_of_all (p : Nat → Bool) (u : List Nat)
    (hu : ∀ c ∈ u, p c = true) : u.dropWhile p = [] := by
  have h := dropWhile_append_all p u [] hu
  rw [List.append_nil] at h
  simpa using h

theorem dropWhile_append_split (p : Nat → Bool) (a b : List Nat) :
    (a ++ b).dropWhile p =
      if a.dropWhile p = [] then b.dropWhile p else a.dropWhile p ++ b := by
  induction a with
  | nil => simp
  | cons x xs ih =>
    cases hx : p x with
    | true =>
      rw [List.cons_append, List.dropWhile_cons_of_pos hx,
        List.dropWhile_cons_of_pos hx]
      exact ih
    | false =>
      rw [List.cons_append, List.dropWhile_cons_of_neg (by simp [hx]),
        List.dropWhile_cons_of_neg (by simp [hx]),
        if_neg (List.cons_ne_nil _ _), List.cons_append]

theorem isSpacePy_pyLowerChar (c : Nat) :
    isSpacePy (pyLowerChar c) = isSpacePy c := by
  unfold pyLowerChar
  split_ifs with h
  · have h1 : isSpacePy (c + 32) = false := by
      unfold isSpacePy
      apply decide_eq_false
      omega
    have h2 : isSpacePy c = false := by
      unfold isSpacePy
      apply decide_eq_false
      omega
    rw [h1, h2]
  · rfl

theorem dropWhile_map_lower (s : List Nat) :
    (s.map pyLowerChar).dropWhile isSpacePy =
      (s.dropWhile isSpacePy).map pyLowerChar := by
  induction s with
  | nil => rfl
  | cons c cs ih =>
    rw [List.map_cons, List.dropWhile_cons, List.dropWhile_cons,
      isSpacePy_pyLowerChar]
    cases hc : isSpacePy c with
    | true => rw [if_pos rfl, if_pos rfl, ih]
    | false => rw [if_neg (by simp), if_neg (by simp), List.map_cons]

theorem pyStrip_pyLower_comm (s : List Nat) :
    pyStrip (pyLower s) = pyLower (pyStrip s) := by
  unfold pyStrip pyLower stripLeadingWs stripTrailingWs
  rw [← List.map_reverse, dropWhile_map_lower, ← List.map_reverse,
    dropWhile_map_lower]

theorem pyStrip_pad (u s v : List Nat)
    (hu : ∀ c ∈ u, isSpacePy c = true) (hv : ∀ c ∈ v, isSpacePy c = true) :
    pyStrip (u ++ s ++ v) = pyStrip s := by
  unfold pyStrip stripLeadingWs stripTrailingWs
  have hrev : (u ++ s ++ v).reverse = v.reverse ++ (s.reverse ++ u.reverse) := by
    simp [List.reverse_append, List.append_assoc]
  rw [hrev, dropWhile_append_all isSpacePy v.reverse _
    (fun c hc => hv c (List.mem_reverse.mp hc))]
  rw [dropWhile_append_split isSpacePy s.reverse u.reverse]
  by_cases hcase : s.reverse.dropWhile isSpacePy = []
  · rw [if_pos hcase, hcase, dropWhile_nil_of_all isSpacePy u.reverse
      (fun c hc => hu c (List.mem_reverse.mp hc))]
  · rw [if_neg hcase, List.reverse_append, List.reverse_reverse]
    exact dropWhile_append_all isSpacePy u _ (fun c hc => hu c hc)

/-- Claim C5: the loader normalization (trim, lowercase, title-case) maps
any two field values that differ only in letter case and in surrounding
whitespace to the same canonical label. -/
theorem C5_normalization_canonical (u1 v1 u2 v2 s t : List Nat)
    (hu1 : ∀ c ∈ u1, isSpacePy c = true) (hv1 : ∀ c ∈ v1, isSpacePy c = true)
    (hu2 : ∀ c ∈ u2, isSpacePy c = true) (hv2 : ∀ c ∈ v2, isSpacePy c = true)
    (hst : pyLower s = pyLower t) :
    normalizeField (u1 ++ s ++ v1) = normalizeField (u2 ++ t ++ v2) := by
  unfold normalizeField
  rw [pyStrip_pad u1 s v1 hu1 hv1, pyStrip_pad u2 t v2 hu2 hv2,
    ← pyStrip_pyLower_comm, ← pyStrip_pyLower_comm, hst]

theorem C5_normalization_witness :
    normalizeField ([32] ++ str2codes "electronics" ++ [32]) =
      normalizeField ([] ++ str2codes "ELECTRONICS" ++ []) ∧
    normalizeField (str2codes " electronics ") = str2codes "Electronics" :=
  ⟨C5_normalization_canonical [32] [32] [] [] (str2codes "electronics")
      (str2codes "ELECTRONICS") (by decide) (by decide) (by decide)
      (by decide) (by decide),
    by decide⟩

theorem mergeLeft_mem {α β : Type} (ka : α → String) (kb : β → String)
    (l : List α) (r : List β) (x : α × Option β)
    (hx : x ∈ mergeLeft l r ka kb) :
    x.1 ∈ l ∧
      ((x.2 = none ∧ r.filter (fun b => kb b == ka x.1) = []) ∨
        (∃ b, x.2 = some b ∧ b ∈ r ∧ kb b = ka x.1)) := by
  unfold mergeLeft at hx
  obtain ⟨a, ha, hxa⟩ := List.mem_flatMap.mp hx
  rcases hfa : r.filter (fun b => kb b == ka a) with _ | ⟨b, bs⟩
  · rw [hfa] at hxa
    have hx1 : x = (a, none) := List.mem_singleton.mp hxa
    rw [hx1]
    exact ⟨ha, Or.inl ⟨rfl, hfa⟩⟩
  · rw [hfa] at hxa
    obtain ⟨b0, hb0, hxb0⟩ := List.mem_map.mp hxa
    have hb0f : b0 ∈ r.filter (fun b => kb b == ka a) := by
      rw [hfa]; exact hb0
    have hb0r := List.mem_filter.mp hb0f
    rw [← hxb0]
    exact ⟨ha, Or.inr ⟨b0, rfl, hb0r.1, eq_of_beq hb0r.2⟩⟩

theorem opt_none_iff_no_match {β : Type} (kb : β → String) (key : String)
    (r : List β) (o : Option β)
    (hd : (o = none ∧ r.filter (fun b => kb b == key) = []) ∨
      (∃ b, o = some b ∧ b ∈ r ∧ kb b = key)) :
    o = none ↔ ¬ ∃ b ∈ r, kb b = key := by
  constructor
  · intro hnone
    rcases hd with ⟨_, hfil⟩ | ⟨b, hsome, _, _⟩
    · rintro ⟨b, hbr, hbk⟩
      have hbf : b ∈ r.filter (fun b => kb b == key) :=
        List.mem_filter.mpr ⟨hbr, by rw [hbk]; exact beq_self_eq_true key⟩
      rw [hfil] at hbf
      exact List.not_mem_nil _ hbf
    · rw [hnone] at hsome
      exact Option.noConfusion hsome
  · intro hno
    rcases hd with ⟨h, _⟩ | ⟨b, hsome, hbr, hbk⟩
    · exact h
    · exact absurd ⟨b, hbr, hbk⟩ hno

theorem filter_key_length_le_one {β : Type} (kb : β → String) (r : List β)
    (hr : (r.map kb).Nodup) (x : String) :
    (r.filter (fun b => kb b == x)).length ≤ 1 := by
  induction r with
  | nil => simp
  | cons b bs ih =>
    rw [List.map_cons] at hr
    have hnd := List.nodup_cons.mp hr
    cases hb : (kb b == x) with
    | true =>
      have hnil : bs.filter (fun b2 => kb b2 == x) = [] := by
        apply List.filter_eq_nil_iff.mpr
        intro b2 hb2 hbe
        have h1 : kb b2 = x := eq_of_beq hbe
        have h2 : kb b = x := eq_of_beq hb
        exact hnd.1 (by rw [h2, ← h1]; exact List.mem_map_of_mem kb hb2)
      simp [List.filter_cons, hb, hnil]
    | false =>
      simp only [List.filter_cons, hb, Bool.false_eq_true, ite_false,
        if_false]
      exact ih hnd.2

theorem mergeLeft_map_fst {α β : Type} (ka : α → String) (kb : β → String)
    (l : List α) (r : List β) (hr : (r.map kb).Nodup) :
    (mergeLeft l r ka kb).map (fun x => x.1) = l := by
  induction l with
  | nil => rfl
  | cons a l ih =>
    have hcons : mergeLeft (a :: l) r ka kb =
        (match r.filter (fun b => kb b == ka a) with
          | [] => [(a, none)]
          | bs => bs.map (fun b => (a, some b))) ++ mergeLeft l r ka kb := rfl
    have hpiece : ((match r.filter (fun b => kb b == ka a) with
        | [] => [(a, none)]
        | bs => bs.map (fun b => (a, some b))).map
          (fun x : α × Option β => x.1)) = [a] := by
      rcases hfa : r.filter (fun b => kb b == ka a) with _ | ⟨b, bs⟩
      · rfl
      · have hlen := filter_key_length_le_one kb r hr (ka a)
        rw [hfa] at hlen
        have hbs : bs = [] := by
          cases bs with
          | nil => rfl
          | cons b2 bs2 => simp at hlen
        rw [hbs]
        rfl
    rw [hcons, List.map_append, hpiece, ih]
    rfl

/-- Claim C2: with unique product and customer keys, the joiner (left join
of transactions to products on producto_id, then to customers on
cliente_id) yields exactly one output row per input transaction in order
(hence the row count is preserved), and a transaction whose foreign key
has no match appears with a null product or customer side rather than
being dropped (the side is none exactly when no key matches). -/
theorem C2_load_data_left_join (ts : List Transaccion) (ps : List Producto)
    (cs : List Cliente)
    (hp : (ps.map (·.producto_id)).Nodup)
    (hc : (cs.map (·.cliente_id)).Nodup) :
    (load_data ts ps cs).map (fun x => x.1.1) = ts ∧
    ∀ x ∈ load_data ts ps cs,
      (x.1.2 = none ↔ ¬ ∃ p ∈ ps, p.producto_id = x.1.1.producto_id) ∧
      (x.2 = none ↔ ¬ ∃ c ∈ cs, c.cliente_id = x.1.1.cliente_id) := by
  constructor
  · unfold load_data
    have h1 := mergeLeft_map_fst
      (fun tp : Transaccion × Option Producto => tp.1.cliente_id)
      (fun c : Cliente => c.cliente_id)
      (mergeLeft ts ps (fun t : Transaccion => t.producto_id)
        (fun p : Producto => p.producto_id)) cs hc
    have h2 := mergeLeft_map_fst (fun t : Transaccion => t.producto_id)
      (fun p : Producto => p.producto_id) ts ps hp
    calc (mergeLeft (mergeLeft ts ps (fun t : Transaccion => t.producto_id)
            (fun p : Producto => p.producto_id)) cs
            (fun tp => tp.1.cliente_id)
            (fun c : Cliente => c.cliente_id)).map (fun x => x.1.1)
        = ((mergeLeft (mergeLeft ts ps (fun t : Transaccion => t.producto_id)
            (fun p : Producto => p.producto_id)) cs
            (fun tp => tp.1.cliente_id)
            (fun c : Cliente => c.cliente_id)).map (fun x => x.1)).map
            (fun y => y.1) := (List.map_map _ _ _).symm
      _ = (mergeLeft ts ps (fun t : Transaccion => t.producto_id)
            (fun p : Producto => p.producto_id)).map (fun y => y.1) := by
            rw [h1]
      _ = ts := h2
  · intro x hx
    unfold load_data at hx
    have hO := mergeLeft_mem
      (fun tp : Transaccion × Option Producto => tp.1.cliente_id)
      (fun c : Cliente => c.cliente_id)
      (mergeLeft ts ps (fun t : Transaccion => t.producto_id)
        (fun p : Producto => p.producto_id)) cs x hx
    have hI := mergeLeft_mem (fun t : Transaccion => t.producto_id)
      (fun p : Producto => p.producto_id) ts ps x.1 hO.1
    exact ⟨opt_none_iff_no_match _ _ _ _ hI.2,
      opt_none_iff_no_match _ _ _ _ hO.2⟩

theorem C2_load_data_witness :
    (load_data [transA] [prodA] []).map (fun x => x.1.1) = [transA] :=
  (C2_load_data_left_join [transA] [prodA] [] (by decide) (by decide)).1

theorem foldr_max_mem : ∀ l : List Nat, l ≠ [] → l.foldr max 0 ∈ l := by
  intro l
  induction l with
  | nil => intro h; exact absurd rfl h
  | cons x xs ih =>
    intro _
    cases xs with
    | nil =>
      simp
    | cons y ys =>
      rw [List.foldr_cons]
      rcases Nat.le_total ((y :: ys).foldr max 0) x with h | h
      · rw [Nat.max_eq_left h]
        exact List.mem_cons_self x (y :: ys)
      · rw [Nat.max_eq_right h]
        exact List.mem_cons_of_mem x (ih (List.cons_ne_nil y ys))

theorem foldr_max_le : ∀ (l : List Nat) (y : Nat), y ∈ l → y ≤ l.foldr max 0 := by
  intro l
  induction l with
  | nil => intro y hy; exact absurd hy (List.not_mem_nil y)
  | cons x xs ih =>
    intro y hy
    rw [List.foldr_cons]
    rcases List.mem_cons.mp hy with h | h
    · rw [h]; exact Nat.le_max_left _ _
    · exact Nat.le_trans (ih y h) (Nat.le_max_right _ _)

theorem ventas_por_ubicacion_count_pos (rows : List DRow) :
    ∀ e ∈ ventas_por_ubicacion rows, 1 ≤ e.2.2 := by
  intro e he
  unfold ventas_por_ubicacion at he
  obtain ⟨cid, hcid, rfl⟩ := List.mem_map.mp he
  have hcid3 : cid ∈ rows.map (·.cliente_id) :=
    List.mem_dedup.mp (mem_sortedStr.mp hcid)
  obtain ⟨r, hr, hrc⟩ := List.mem_map.mp hcid3
  have hrf : r ∈ rows.filter (fun r2 => r2.cliente_id == cid) :=
    List.mem_filter.mpr ⟨hr, by rw [hrc]; exact beq_self_eq_true cid⟩
  exact List.length_pos_of_mem hrf

theorem df_clientes_geo_pos (dfF : List DRow) (clientes : List Cliente) :
    ∀ g ∈ df_clientes_geo dfF clientes,
      ∃ v n, g.ventas = some (v, n) ∧ 1 ≤ n := by
  intro g hg
  unfold df_clientes_geo at hg
  obtain ⟨p, hp, rfl⟩ := List.mem_map.mp hg
  have hmem := mergeLeft_mem (fun c : Cliente => c.cliente_id)
    (fun v : String × Rat × Nat => v.1) (df_clientes_filtrado dfF clientes)
    (ventas_por_ubicacion dfF) p hp
  rcases hmem.2 with ⟨_, hfil⟩ | ⟨b, hsome, hbr, _⟩
  · exfalso
    have hcf := List.mem_filter.mp hmem.1
    have hidm : p.1.cliente_id ∈ dfF.map (·.cliente_id) :=
      List.elem_iff.mp hcf.2
    have hkey : p.1.cliente_id ∈ sortedStr (dfF.map (·.cliente_id)).dedup :=
      mem_sortedStr.mpr (List.mem_dedup.mpr hidm)
    have hentry : (p.1.cliente_id,
        ((dfF.filter (fun r => r.cliente_id == p.1.cliente_id)).map
          (·.total)).sum,
        (dfF.filter (fun r => r.cliente_id == p.1.cliente_id)).length) ∈
        ventas_por_ubicacion dfF := by
      unfold ventas_por_ubicacion
      exact List.mem_map_of_mem _ hkey
    have hin : (p.1.cliente_id,
        ((dfF.filter (fun r => r.cliente_id == p.1.cliente_id)).map
          (·.total)).sum,
        (dfF.filter (fun r => r.cliente_id == p.1.cliente_id)).length) ∈
        (ventas_por_ubicacion dfF).filter
          (fun v => v.1 == p.1.cliente_id) :=
      List.mem_filter.mpr ⟨hentry, beq_self_eq_true _⟩
    rw [hfil] at hin
    exact List.not_mem_nil _ hin
  · have hb1 := ventas_por_ubicacion_count_pos dfF b hbr
    refine ⟨b.2.1, b.2.2, ?_, hb1⟩
    show p.2.map (fun v => v.2) = some (b.2.1, b.2.2)
    rw [hsome]
    rfl

/-- Claim C9: for every row of the per-location rollup the guarded
average-ticket expression takes the division branch (the transaction count
of a rollup row is always positive, so the division-by-zero branch is
never taken there) and equals sales sum divided by transaction count;
the guard itself returns exactly zero whenever the count is zero. -/
theorem C9_avg_venta_guarded (dfF : List DRow) (clientes : List Cliente) :
    (∀ v : Rat, avg_venta v 0 = 0) ∧
    ∀ e ∈ coordenadas_unicas dfF clientes,
      0 < e.num_transacciones ∧
      avg_venta e.ventas_totales e.num_transacciones =
        e.ventas_totales / (e.num_transacciones : Rat) := by
  constructor
  · intro v
    rfl
  · intro e he
    unfold coordenadas_unicas at he
    obtain ⟨k, hk, rfl⟩ := List.mem_map.mp he
    have hk2 : k ∈ (df_clientes_geo dfF clientes).map ubicacionKey :=
      List.mem_dedup.mp hk
    obtain ⟨g0, hg0, hg0k⟩ := List.mem_map.mp hk2
    have hg0grp : g0 ∈ (df_clientes_geo dfF clientes).filter
        (fun g => decide (ubicacionKey g = k)) :=
      List.mem_filter.mpr ⟨hg0, decide_eq_true hg0k⟩
    obtain ⟨v, n, hgv, hn⟩ := df_clientes_geo_pos dfF clientes g0 hg0
    have htrans : 1 ≤ transDe g0 := by
      unfold transDe
      rw [hgv]
      exact hn
    have hsum : 0 < (((df_clientes_geo dfF clientes).filter
        (fun g => decide (ubicacionKey g = k))).map transDe).sum :=
      Nat.lt_of_lt_of_le htrans
        (List.le_sum_of_mem (List.mem_map_of_mem transDe hg0grp))
    refine ⟨hsum, ?_⟩
    unfold avg_venta
    rw [if_pos hsum]

theorem modas_head_spec (xs : List String) (hx : xs ≠ []) :
    ∃ m ms, modas xs = m :: ms ∧ m ∈ xs ∧
      (∀ t ∈ xs, countOcc xs t ≤ countOcc xs m) ∧
      (∀ t ∈ xs, countOcc xs t = countOcc xs m → m ≤ t) := by
  have hne : xs.map (countOcc xs) ≠ [] := by
    intro h
    exact hx (List.map_eq_nil_iff.mp h)
  have hattain : maxCnt xs ∈ xs.map (countOcc xs) := foldr_max_mem _ hne
  obtain ⟨v, hv, hveq⟩ := List.mem_map.mp hattain
  have hvc : v ∈ xs.dedup.filter (fun w => countOcc xs w == maxCnt xs) :=
    List.mem_filter.mpr ⟨List.mem_dedup.mpr hv,
      by rw [hveq]; exact beq_self_eq_true _⟩
  have hvm : v ∈ modas xs := mem_sortedStr.mpr hvc
  rcases hmod : modas xs with _ | ⟨m, ms⟩
  · rw [hmod] at hvm
    exact absurd hvm (List.not_mem_nil v)
  · have hmm : m ∈ modas xs := by
      rw [hmod]
      exact List.mem_cons_self m ms
    have hmc : m ∈ xs.dedup.filter (fun w => countOcc xs w == maxCnt xs) :=
      mem_sortedStr.mp hmm
    have hmf := List.mem_filter.mp hmc
    have hmmax : countOcc xs m = maxCnt xs := eq_of_beq hmf.2
    have hmxs : m ∈ xs := List.mem_dedup.mp hmf.1
    have hsorted : List.Sorted (· ≤ ·) (modas xs) :=
      List.sorted_insertionSort (· ≤ ·) _
    rw [hmod] at hsorted
    have hle : ∀ b ∈ ms, m ≤ b := (List.sorted_cons.mp hsorted).1
    refine ⟨m, ms, rfl, hmxs, ?_, ?_⟩
    · intro t ht
      rw [hmmax]
      exact foldr_max_le _ _ (List.mem_map_of_mem _ ht)
    · intro t ht htc
      have htc2 : countOcc xs t = maxCnt xs := by rw [htc, hmmax]
      have htcand : t ∈ xs.dedup.filter (fun w => countOcc xs w == maxCnt xs) :=
        List.mem_filter.mpr ⟨List.mem_dedup.mpr ht,
          by rw [htc2]; exact beq_self_eq_true _⟩
      have htm : t ∈ modas xs := mem_sortedStr.mpr htcand
      rw [hmod] at htm
      rcases List.mem_cons.mp htm with h | h
      · rw [h]
      · exact hle t h

theorem segmento_principal_spec (grp : List GeoRow) :
    (segmentosDe grp = [] → segmento_principal_de grp = "N/A") ∧
    ∀ s ∈ segmentosDe grp,
      segmento_principal_de grp ∈ segmentosDe grp ∧
      countOcc (segmentosDe grp) s ≤
        countOcc (segmentosDe grp) (segmento_principal_de grp) ∧
      (countOcc (segmentosDe grp) s =
        countOcc (segmentosDe grp) (segmento_principal_de grp) →
        segmento_principal_de grp ≤ s) := by
  by_cases hxs : segmentosDe grp = []
  · constructor
    · intro _
      unfold segmento_principal_de
      rw [hxs]
      rfl
    · intro s hs
      rw [hxs] at hs
      exact absurd hs (List.not_mem_nil s)
  · obtain ⟨m, ms, hmod, hmem, hmax, htie⟩ :=
      modas_head_spec (segmentosDe grp) hxs
    have hprin : segmento_principal_de grp = m := by
      unfold segmento_principal_de
      rw [hmod]
    constructor
    · intro h
      exact absurd h hxs
    · intro s hs
      rw [hprin]
      exact ⟨hmem, hmax s hs, htie s hs⟩

/-- Claim C10: the principal segment of every per-location rollup row is a
most frequent non-null segment value of the rows grouped at that location,
with ties between equally frequent segments broken by the lexicographically
least tied value (pandas mode returns its result sorted and the code takes
entry 0), and it is the literal string N/A exactly when the group has no
non-null segment value at all. -/
theorem C10_segmento_principal (dfF : List DRow) (clientes : List Cliente) :
    ∀ e ∈ coordenadas_unicas dfF clientes,
      (segmentosDe (grupoUbicacion dfF clientes e) = [] →
        e.segmento_principal = "N/A") ∧
      ∀ s ∈ segmentosDe (grupoUbicacion dfF clientes e),
        e.segmento_principal ∈ segmentosDe (grupoUbicacion dfF clientes e) ∧
        countOcc (segmentosDe (grupoUbicacion dfF clientes e)) s ≤
          countOcc (segmentosDe (grupoUbicacion dfF clientes e))
            e.segmento_principal ∧
        (countOcc (segmentosDe (grupoUbicacion dfF clientes e)) s =
          countOcc (segmentosDe (grupoUbicacion dfF clientes e))
            e.segmento_principal →
          e.segmento_principal ≤ s) := by
  intro e he
  unfold coordenadas_unicas at he
  obtain ⟨k, _, rfl⟩ := List.mem_map.mp he
  exact segmento_principal_spec ((df_clientes_geo dfF clientes).filter
    (fun g => decide (ubicacionKey g = k)))

theorem geoA_eval :
    df_clientes_geo [rowA] [clienteA] = [⟨clienteA, some ((10 : Rat), 1)⟩] := by
  simp [df_clientes_geo, df_clientes_filtrado, ventas_por_ubicacion,
    mergeLeft, sortedStr, List.insertionSort, List.orderedInsert,
    rowA, clienteA]

theorem coordA_eval :
    coordenadas_unicas [rowA] [clienteA] = [uRowA] := by
  simp only [coordenadas_unicas]
  rw [geoA_eval]
  simp [ubicacionKey, ventasDe, transDe, segmento_principal_de, modas,
    segmentosDe, countOcc, maxCnt, sortedStr, List.insertionSort,
    List.orderedInsert, clienteA, uRowA]

theorem grupoA_eval :
    grupoUbicacion [rowA] [clienteA] uRowA =
      [⟨clienteA, some ((10 : Rat), 1)⟩] := by
  unfold grupoUbicacion
  rw [geoA_eval]
  simp [ubicacionKey, uRowA, clienteA]

theorem C9_avg_venta_witness :
    0 < uRowA.num_transacciones ∧
    avg_venta uRowA.ventas_totales uRowA.num_transacciones =
      uRowA.ventas_totales / (uRowA.num_transacciones : Rat) :=
  (C9_avg_venta_guarded [rowA] [clienteA]).2 uRowA
    (by rw [coordA_eval]; exact List.mem_singleton.mpr rfl)

theorem C10_segmento_principal_witness :
    uRowA.segmento_principal ∈
      segmentosDe (grupoUbicacion [rowA] [clienteA] uRowA) ∧
    countOcc (segmentosDe (grupoUbicacion [rowA] [clienteA] uRowA))
        "Corporate" ≤
      countOcc (segmentosDe (grupoUbicacion [rowA] [clienteA] uRowA))
        uRowA.segmento_principal ∧
    (countOcc (segmentosDe (grupoUbicacion [rowA] [clienteA] uRowA))
        "Corporate" =
      countOcc (segmentosDe (grupoUbicacion [rowA] [clienteA] uRowA))
        uRowA.segmento_principal →
      uRowA.segmento_principal ≤ "Corporate") :=
  (C10_segmento_principal [rowA] [clienteA] uRowA
      (by rw [coordA_eval]; exact List.mem_singleton.mpr rfl)).2 "Corporate"
    (by rw [grupoA_eval]; simp [segmentosDe, clienteA])
